import Mathlib

/-!
Verification development for the `rust_nn` feed-forward neural-network
trainer.  Matrices and vectors (`nalgebra` `DMatrix`/`DVector`) are embedded
as Lean lists: a vector is a `List ℝ` (or `List ℚ` where every operation of
the corresponding Rust code is exact field arithmetic and comparison), a
matrix is either a list of rows (for matrix–vector products) or a list of
columns / a flat column-major data list, matching how the Rust code itself
accesses the storage at each site.  `f32`/`f64` values are modelled as exact
rationals or reals; where IEEE semantics matter (logarithm of zero, division
zero-by-zero) the embedding makes the operation partial (`Option`), with
`none` standing for a non-finite result (NaN or ±Infinity).
-/

namespace NeunetD
/-! Embedding of `src/neunet/definitions.rs`. -/

/-- Rust `MLOps::hypothesis`: `w.dot(x) + b`. -/
def MLOps.hypothesis (w x : List ℝ) (b : ℝ) : ℝ :=
  (List.zipWith (· * ·) w x).sum + b

/-- Rust `MLOps::sigmoid`: `1 / (1 + (-z).exp())`. -/
noncomputable def MLOps.sigmoid (z : ℝ) : ℝ :=
  1 / (1 + Real.exp (-z))

/-- Rust `MLOps::relu`: `z.max(0.0)`. -/
noncomputable def MLOps.relu (z : ℝ) : ℝ := max z 0

/-- Rust `MLOps::tanh`. -/
noncomputable def MLOps.tanh (z : ℝ) : ℝ := Real.tanh z

/-- Rust `MLOps::soft_max`: the Rust code sums `e.exp()` over the entries of `v`
into `sum`, then returns `v / sum` — it divides the *raw* entries by the sum
of exponentials (the entries themselves are never exponentiated, and no
per-vector maximum is subtracted). -/
noncomputable def MLOps.soft_max (v : List ℝ) : List ℝ :=
  let sum := (v.map Real.exp).sum
  v.map (fun e => e / sum)

/-- Rust `MLOps::loss_from_pred`: `-(y * y_hat.ln() + (1 - y) * (1 - y_hat).ln())`.
The embedding tracks IEEE finiteness of the `f64` computation: `lnF x` is
`none` whenever `x ≤ 0` (IEEE `ln` returns `-inf` at `0` and NaN below `0`),
and any product/sum involving such a value is non-finite here (for
`y ∈ [0,1]` the IEEE result is `NaN` or `±inf` in exactly those cases), so
the whole loss is `none` exactly when a logarithm of a non-positive
prediction is taken.  There is no clamping of `y_hat` away from `{0,1}`. -/
noncomputable def lnF (q : ℚ) : Option ℝ :=
  if 0 < q then some (Real.log (q : ℝ)) else none

noncomputable def MLOps.loss_from_pred (y y_hat : ℚ) : Option ℝ :=
  match lnF y_hat, lnF (1 - y_hat) with
  | some l1, some l2 => some (-((y : ℝ) * l1 + (1 - (y : ℝ)) * l2))
  | _, _ => none

/-- Total real-valued transcription of `MLOps::loss_from_pred`, used inside
the SGD loop where the prediction is a sigmoid output (strictly inside
`(0,1)`, so the logarithms are of positive reals and the `f64` computation
is finite). -/
noncomputable def MLOps.loss_from_predR (y y_hat : ℝ) : ℝ :=
  -(y * Real.log y_hat + (1 - y) * Real.log (1 - y_hat))

/-- Rust `enum ActivationType` of `definitions.rs`. -/
inductive ActivationType where
  | sigmoid
  | relu
  | soft_max
deriving DecidableEq

/-- Rust `struct Layer` of `definitions.rs`: intercepts, weights (stored as a
list of rows, so that `weights * current` is the row-wise dot product, as
`nalgebra`'s matrix–vector product computes it), activation type. -/
structure Layer where
  intercepts : List ℝ
  weights : List (List ℝ)
  activation_type : ActivationType

/-- Rust `struct NeuralNetwork` of `definitions.rs`. -/
structure NeuralNetwork where
  layers : List Layer

end NeunetD

namespace NeunetD
/-! Embedding of `src/neunet/optimization.rs`. -/

/-- Matrix–vector product `weights * v` (weights stored as a list of rows;
each output entry is the dot product of a row with `v`). -/
def mulVec (w : List (List ℝ)) (v : List ℝ) : List ℝ :=
  w.map (fun row => (List.zipWith (· * ·) row v).sum)

/-- One affine step `&l.weights * current + &l.intercepts`. -/
def affine (l : Layer) (v : List ℝ) : List ℝ :=
  List.zipWith (· + ·) (mulVec l.weights v) l.intercepts

/-- Rust `impl ForwardProp for NeuralNetwork::forward_prop`: for each layer in
order, `current = W * current + b` and then `current.map(|e| sigmoid(e))`
— the sigmoid is applied unconditionally, whatever the layer's
`activation_type`. -/
noncomputable def NeuralNetwork.forward_prop (nn : NeuralNetwork) (inputs : List ℝ) : List ℝ :=
  nn.layers.foldl (fun current l => (affine l current).map MLOps.sigmoid) inputs

/-- Modelled from the spec (§4.2, the wording of claim C3): forward
propagation that applies, at each layer, that layer's *own* activation
function.  Translated from the spec's words to compare `forward_prop`
against the claim. -/
noncomputable def applyActivation : ActivationType → List ℝ → List ℝ
  | .sigmoid, v => v.map MLOps.sigmoid
  | .relu, v => v.map MLOps.relu
  | .soft_max, v => MLOps.soft_max v

noncomputable def forwardPropPerLayerActivation : List Layer → List ℝ → List ℝ
  | [], inputs => inputs
  | l :: ls, inputs =>
      forwardPropPerLayerActivation ls (applyActivation l.activation_type (affine l inputs))

/-- Layer-by-layer restatement of what `forward_prop` computes: at every
layer `z = W·a_prev + b`, `a = sigmoid(z)`. -/
noncomputable def forwardPropAllSigmoid : List Layer → List ℝ → List ℝ
  | [], inputs => inputs
  | l :: ls, inputs => forwardPropAllSigmoid ls ((affine l inputs).map MLOps.sigmoid)

structure BackPropOut where
  weights : List ℝ
  intercepts : List ℝ

/-- Rust `impl BackProp for NeuralNetwork::back_prop`: the `for` loop over the
layers has an empty body and the function then reaches `unimplemented!()`;
`none` models the panic (no `BackPropOut` is ever produced). -/
def NeuralNetwork.back_prop (nn : NeuralNetwork) (inputs : List ℝ) : Option BackPropOut :=
  let _current := nn.layers.foldl (fun current _l => current) inputs
  none

structure StochasticGradientDescent where
  learning_rate : ℝ
  stop_cost_quota : ℝ
  network : NeuralNetwork

/-- Inner `forward_prop` of `optimize`: `z_i = hypothesis(w, features, b)`;
both match arms apply the sigmoid. -/
noncomputable def sgdForwardProp (features w : List ℝ) (b : ℝ) (t : ActivationType) : ℝ :=
  let z_i := MLOps.hypothesis w features b
  match t with
  | .sigmoid => MLOps.sigmoid z_i
  | _ => MLOps.sigmoid z_i

/-- Inner `back_prop` of `optimize`: `dz_i = y_hat - y`;
`dw[j] += x[j] * dz_i` for each `j`; `db += dz_i`. -/
def sgdBackProp (y_hat y : ℝ) (x dw : List ℝ) (db : ℝ) : List ℝ × ℝ :=
  let dz_i := y_hat - y
  (dw.mapIdx (fun j d => d + x.getD j 0 * dz_i), db + dz_i)

/-- Mutable locals of `optimize`, threaded through the `while` loop. -/
structure SGDState where
  w : List ℝ
  dw : List ℝ
  b : ℝ
  db : ℝ
  cost : ℝ
  iteration : ℕ

/-- One iteration of the `while !converged` loop of
`StochasticGradientDescent::optimize`.  `columns` is the `data` matrix as
its list of columns; the code takes `num_examples = shape.0` and iterates
`data.column(i)` for `i < num_examples`, accumulating `cost`, `dw`, `db`
(none of which is reset between iterations), then scales `dw`, `db`,
`cost` by `1/num_examples` and steps `w`, `b` by `-learning_rate` times the
scaled gradients. -/
noncomputable def sgdIteration (lr : ℝ) (columns : List (List ℝ)) (num_examples : ℕ)
    (y : List ℝ) (st : SGDState) : SGDState :=
  let inner := (List.range num_examples).foldl
    (fun (acc : List ℝ × ℝ × ℝ) i =>
      let x_i := columns.getD i []
      let y_hat_i := sgdForwardProp x_i st.w st.b ActivationType.sigmoid
      let cost2 := acc.2.2 + MLOps.loss_from_predR (y.getD i 0) y_hat_i
      let p := sgdBackProp y_hat_i (y.getD i 0) x_i acc.1 acc.2.1
      (p.1, p.2, cost2))
    (st.dw, st.db, st.cost)
  let dw2 := inner.1.map (fun d => d / (num_examples : ℝ))
  let w2 := List.zipWith (fun wj dwj => wj - lr * dwj) st.w dw2
  let db2 := inner.2.1 / (num_examples : ℝ)
  let cost2 := inner.2.2 / (num_examples : ℝ)
  { w := w2, dw := dw2, b := st.b - lr * db2, db := db2, cost := cost2,
    iteration := st.iteration + 1 }

open Classical in
/-- The `while !converged` loop, with fuel bounding how many iterations are
examined.  When the loop exits (the scaled cost drops below
`stop_cost_quota`) the Rust function reaches `unimplemented!()`, modelled
as `none`; running out of fuel is also `none` (that execution has not
returned normally either). -/
noncomputable def sgdLoop (sgd : StochasticGradientDescent) (columns : List (List ℝ))
    (num_examples : ℕ) (y : List ℝ) : ℕ → SGDState → Option Unit
  | 0, _ => none
  | fuel + 1, st =>
    let st2 := sgdIteration sgd.learning_rate columns num_examples y st
    if st2.cost < sgd.stop_cost_quota then none
    else sgdLoop sgd columns num_examples y fuel st2

/-- Rust `impl Optimizer for StochasticGradientDescent::optimize`: initializes
`w`, `dw` to zero vectors of length `num_features` (= `shape.1`) and `b`,
`db`, `cost` to `0`, then runs the `while` loop; the only exit of the
function body is the final `unimplemented!()`. -/
noncomputable def StochasticGradientDescent.optimize (sgd : StochasticGradientDescent)
    (columns : List (List ℝ)) (num_examples num_features : ℕ) (y : List ℝ)
    (fuel : ℕ) : Option Unit :=
  sgdLoop sgd columns num_examples y fuel
    { w := List.replicate num_features (0 : ℝ), dw := List.replicate num_features (0 : ℝ),
      b := 0, db := 0, cost := 0, iteration := 0 }

end NeunetD

/-! Embedding of `src/neunet/transforms/normalize.rs`.  `f32` arithmetic
here is exact field arithmetic and comparison, modelled over `ℚ`; the one
IEEE-specific behaviour, division by zero, is made explicit by `divF`
(`none` stands for the non-finite `f32` result — in this code the
numerator is `0` whenever the denominator is, so `none` is precisely NaN).
The matrix is kept as its list of columns: the Rust code walks the flat
column-major storage from `index = c * rows` for `rows` steps, i.e. exactly
the entries of column `c`. -/

def divF (a b : ℚ) : Option ℚ :=
  if b = 0 then none else some (a / b)

/-- Rust `col_vec.min()`: fold of `min` over the (nonempty) column. -/
def colMin : List ℚ → ℚ
  | [] => 0
  | x :: xs => xs.foldl min x

/-- Rust `col_vec.max()`: fold of `max` over the (nonempty) column. -/
def colMax : List ℚ → ℚ
  | [] => 0
  | x :: xs => xs.foldl max x

/-- Body of the per-column loop of `min_max_normalization`: when
`max > 0.0`, each cell becomes `(cell - min) / (max - min)`; otherwise the
column is untouched. -/
def normalizeColumn (col : List ℚ) : List (Option ℚ) :=
  let mn := colMin col
  let mx := colMax col
  if 0 < mx then col.map (fun cell => divF (cell - mn) (mx - mn))
  else col.map some

/-- Rust `min_max_normalization`: applies the per-column loop to every column
(`min`/`max` are read before any write, and each column only writes its own
entries, so the columns are independent). -/
def min_max_normalization (features : List (List ℚ)) : List (List (Option ℚ)) :=
  features.map normalizeColumn

/-- Sequences a normalized column: `some` of the list of values when every
entry is finite, `none` when any entry is NaN. -/
def seqOpt : List (Option ℚ) → Option (List ℚ)
  | [] => some []
  | none :: _ => none
  | some x :: xs => (seqOpt xs).map (fun l => x :: l)

/-- The per-column statement of claim C4, as the claim words it: a column
whose pre-normalization max is ≤ 0 is unchanged; any other column has
(finite) entries with minimum 0 and maximum 1. -/
def columnOkC4 (col : List ℚ) (out : List (Option ℚ)) : Prop :=
  if colMax col ≤ 0 then out = col.map some
  else
    match seqOpt out with
    | some vals => colMin vals = 0 ∧ colMax vals = 1
    | none => False

/-- Claim C4 as stated, over a whole matrix. -/
def minMaxClaimC4 (m : List (List ℚ)) : Prop :=
  ∀ i col, m.get? i = some col →
    ∃ out, (min_max_normalization m).get? i = some out ∧ columnOkC4 col out

namespace ApiDefs
/-! Embedding of `src/neunet/api/defs.rs`.  Numeric JSON values (`usize`
counts, `f32` metrics) are carried as exact rationals.  A `serde_json`
object is modelled as its list of key–value pairs; the Rust `Map` is a
`BTreeMap`, so only the *set* of keys and the values are meaningful, which
is all the theorems below speak about. -/

inductive JVal where
  | s (v : String)
  | n (v : ℚ)
  | b (v : Bool)
  | arr (vs : List JVal)
  | obj (fields : List (String × JVal))

/-- Keys of a JSON object (empty for non-objects). -/
def jKeys : JVal → List String
  | .obj fields => fields.map Prod.fst
  | _ => []

/-- Field lookup in a JSON object. -/
def jGet : JVal → String → Option JVal
  | .obj fields, key => (fields.find? (fun p => p.1 == key)).map Prod.snd
  | _, _ => none

/-- Rust `struct TrainingEval`: confusion matrix dimension, the matrix's flat
data (`confusion_matrix.data.as_vec()`), per-label accuracies, accuracy. -/
structure TrainingEval where
  confusion_matrix_dim : ℕ
  confusion_matrix : List ℕ
  labels_accuracies : List ℚ
  accuracy : ℚ

/-- Rust `struct Metrics`. -/
structure Metrics where
  loss : ℚ
  train_eval : TrainingEval
  test_eval : TrainingEval

/-- Rust `struct TrainingMessage`. -/
structure TrainingMessage where
  message : String
  iteration : ℕ
  epoch : ℕ
  batch_start : ℕ
  metrics : Option Metrics

/-- The JSON object the code builds for one `TrainingEval` (the value
inserted under `"train_eval"` / `"test_eval"`): a `confusion_matrix` object
with fields `data`, `predictions_on_cols`, `data_orientation_per_col` and
`dimension`, then `label_accuracies` and `accuracy`. -/
def trainingEvalJson (te : TrainingEval) : JVal :=
  .obj [("confusion_matrix",
          .obj [("data", .arr (te.confusion_matrix.map (fun x => .n x))),
                ("predictions_on_cols", .b true),
                ("data_orientation_per_col", .b true),
                ("dimension", .n te.confusion_matrix_dim)]),
        ("label_accuracies", .arr (te.labels_accuracies.map (fun x => .n x))),
        ("accuracy", .n te.accuracy)]

/-- Rust `impl Json for TrainingMessage::to_json` (the JSON tree that is then
stringified): starts from `{message, epoch, iteration, batch_start}` and,
when `metrics` is present, inserts `loss`, `train_eval` and `test_eval`
directly into that same top-level map — there is no `"metrics"` wrapper
object. -/
def TrainingMessage.to_json (msg : TrainingMessage) : JVal :=
  .obj ([("message", .s msg.message),
         ("epoch", .n msg.epoch),
         ("iteration", .n msg.iteration),
         ("batch_start", .n msg.batch_start)] ++
    match msg.metrics with
    | some metrics =>
        [("loss", .n metrics.loss),
         ("train_eval", trainingEvalJson metrics.train_eval),
         ("test_eval", trainingEvalJson metrics.test_eval)]
    | none => [])

/-- Rust `enum OptimizationType` of `api/defs.rs`. -/
inductive OptimizationType where
  | MBGD
  | Momentum
  | RMSProp
  | Adam
deriving DecidableEq

/-- Rust `struct HyperParams` (`f32` fields as exact rationals). -/
structure HyperParams where
  max_accuracy_threshold : ℚ
  max_epochs : ℕ
  momentum_beta : ℚ
  rms_prop_beta : ℚ
  mini_batch_size : ℕ
  learning_rate : ℚ
  optimization_type : OptimizationType
  l2_regularization : Option ℚ

/-- Rust `impl Default for HyperParams`. -/
def HyperParams.default : HyperParams :=
  { max_accuracy_threshold := 0.95
    max_epochs := 3
    momentum_beta := 0.9
    rms_prop_beta := 0.999
    mini_batch_size := 200
    learning_rate := 0.01
    optimization_type := OptimizationType.Adam
    l2_regularization := none }

/-- A `DMatrix` as `DMatrix::from_vec(r, c, v)` builds it: dimensions plus
the flat (column-major) data vector. -/
structure MatFlat where
  nrows : ℕ
  ncols : ℕ
  data : List ℝ

/-- Rust `impl RandomInitializer for HeUniform::weights`: `factor =
(2.0 / c).sqrt()`; each of the `r * c` entries is the next standard-normal
sample times `factor`.  The external `rand_pcg::Pcg32` generator and the
`rand_distr` normal sampler are deterministic functions of the generator
state; the sequence of samples an identically-seeded generator yields is
modelled as the stream `g : ℕ → ℝ` (the `i`-th draw). -/
noncomputable def HeUniform.weights (r c : ℕ) (g : ℕ → ℝ) : MatFlat :=
  let factor := Real.sqrt (2 / (c : ℝ))
  ⟨r, c, (List.range (r * c)).map (fun i => g i * factor)⟩

/-- Rust `impl RandomInitializer for GlorothUniform::weights`: identical to
`HeUniform::weights` except `factor = (6.0 / r as f32 + c as f32).sqrt()`
— by Rust operator precedence this is `sqrt((6/r) + c)`, not
`sqrt(6/(r+c))`. -/
noncomputable def GlorothUniform.weights (r c : ℕ) (g : ℕ → ℝ) : MatFlat :=
  let factor := Real.sqrt (6 / (r : ℝ) + (c : ℝ))
  ⟨r, c, (List.range (r * c)).map (fun i => g i * factor)⟩

end ApiDefs

/-! Helper lemmas about column folds and sequencing. -/

theorem foldl_min_const {v : ℚ} : ∀ (xs : List ℚ), (∀ x ∈ xs, x = v) → xs.foldl min v = v := by
  intro xs
  induction xs with
  | nil => intro _; rfl
  | cons y ys ih =>
    intro h
    have hy : y = v := h y (List.mem_cons_self _ _)
    simp only [List.foldl_cons, hy, min_self]
    exact ih (fun x hx => h x (List.mem_cons_of_mem _ hx))

theorem foldl_max_const {v : ℚ} : ∀ (xs : List ℚ), (∀ x ∈ xs, x = v) → xs.foldl max v = v := by
  intro xs
  induction xs with
  | nil => intro _; rfl
  | cons y ys ih =>
    intro h
    have hy : y = v := h y (List.mem_cons_self _ _)
    simp only [List.foldl_cons, hy, max_self]
    exact ih (fun x hx => h x (List.mem_cons_of_mem _ hx))

theorem colMin_const {v : ℚ} (col : List ℚ) (hne : col ≠ [])
    (hall : ∀ x ∈ col, x = v) : colMin col = v := by
  cases col with
  | nil => exact absurd rfl hne
  | cons x xs =>
    have hx : x = v := hall x (List.mem_cons_self _ _)
    simp only [colMin, hx]
    exact foldl_min_const xs (fun y hy => hall y (List.mem_cons_of_mem _ hy))

theorem colMax_const {v : ℚ} (col : List ℚ) (hne : col ≠ [])
    (hall : ∀ x ∈ col, x = v) : colMax col = v := by
  cases col with
  | nil => exact absurd rfl hne
  | cons x xs =>
    have hx : x = v := hall x (List.mem_cons_self _ _)
    simp only [colMax, hx]
    exact foldl_max_const xs (fun y hy => hall y (List.mem_cons_of_mem _ hy))

theorem foldl_min_map {f : ℚ → ℚ} (hf : Monotone f) :
    ∀ (xs : List ℚ) (a : ℚ), (xs.map f).foldl min (f a) = f (xs.foldl min a) := by
  intro xs
  induction xs with
  | nil => intro a; rfl
  | cons y ys ih =>
    intro a
    simp only [List.map_cons, List.foldl_cons, ← hf.map_min, ih]

theorem foldl_max_map {f : ℚ → ℚ} (hf : Monotone f) :
    ∀ (xs : List ℚ) (a : ℚ), (xs.map f).foldl max (f a) = f (xs.foldl max a) := by
  intro xs
  induction xs with
  | nil => intro a; rfl
  | cons y ys ih =>
    intro a
    simp only [List.map_cons, List.foldl_cons, ← hf.map_max, ih]

theorem colMin_map {f : ℚ → ℚ} (hf : Monotone f) (col : List ℚ) (hne : col ≠ []) :
    colMin (col.map f) = f (colMin col) := by
  cases col with
  | nil => exact absurd rfl hne
  | cons x xs => simpa [colMin] using foldl_min_map hf xs x

theorem colMax_map {f : ℚ → ℚ} (hf : Monotone f) (col : List ℚ) (hne : col ≠ []) :
    colMax (col.map f) = f (colMax col) := by
  cases col with
  | nil => exact absurd rfl hne
  | cons x xs => simpa [colMax] using foldl_max_map hf xs x

theorem seqOpt_map_some (f : ℚ → ℚ) :
    ∀ (l : List ℚ), seqOpt (l.map (fun x => some (f x))) = some (l.map f) := by
  intro l
  induction l with
  | nil => rfl
  | cons x xs ih => simp [seqOpt, ih]

/-! Claim theorems. -/

/-- C10: `HyperParams::default()` satisfies the trainer's validity
preconditions: `mini_batch_size = 200 > 0`, `learning_rate = 0.01 > 0`,
`momentum_beta = 0.9` and `rms_prop_beta = 0.999` both strictly between 0
and 1, `max_epochs = 3`, `optimization_type = Adam`,
`l2_regularization = None`. -/
theorem C10_hyper_params_default_valid :
    ApiDefs.HyperParams.default.mini_batch_size = 200 ∧
    0 < ApiDefs.HyperParams.default.mini_batch_size ∧
    ApiDefs.HyperParams.default.learning_rate = 0.01 ∧
    0 < ApiDefs.HyperParams.default.learning_rate ∧
    ApiDefs.HyperParams.default.momentum_beta = 0.9 ∧
    0 < ApiDefs.HyperParams.default.momentum_beta ∧
    ApiDefs.HyperParams.default.momentum_beta < 1 ∧
    ApiDefs.HyperParams.default.rms_prop_beta = 0.999 ∧
    0 < ApiDefs.HyperParams.default.rms_prop_beta ∧
    ApiDefs.HyperParams.default.rms_prop_beta < 1 ∧
    ApiDefs.HyperParams.default.max_epochs = 3 ∧
    ApiDefs.HyperParams.default.optimization_type = ApiDefs.OptimizationType.Adam ∧
    ApiDefs.HyperParams.default.l2_regularization = none := by
  refine ⟨rfl, by norm_num [ApiDefs.HyperParams.default], rfl,
    by norm_num [ApiDefs.HyperParams.default], rfl,
    by norm_num [ApiDefs.HyperParams.default], by norm_num [ApiDefs.HyperParams.default], rfl,
    by norm_num [ApiDefs.HyperParams.default], by norm_num [ApiDefs.HyperParams.default],
    rfl, rfl, rfl⟩

/-- C8: with the same dimensions and an identically-seeded generator
(hence the same deterministic standard-normal sample stream),
`HeUniform::weights` and `GlorothUniform::weights` each produce equal
weight matrices. -/
theorem C8_initializers_deterministic (r c : ℕ) (g g2 : ℕ → ℝ) (h : g = g2) :
    ApiDefs.HeUniform.weights r c g = ApiDefs.HeUniform.weights r c g2 ∧
    ApiDefs.GlorothUniform.weights r c g = ApiDefs.GlorothUniform.weights r c g2 := by
  subst h
  exact ⟨rfl, rfl⟩

theorem C8_initializers_deterministic_witness :
    ApiDefs.HeUniform.weights 2 3 (fun _ => 1) = ApiDefs.HeUniform.weights 2 3 (fun _ => 1) ∧
    ApiDefs.GlorothUniform.weights 2 3 (fun _ => 1) =
      ApiDefs.GlorothUniform.weights 2 3 (fun _ => 1) :=
  C8_initializers_deterministic 2 3 (fun _ => 1) (fun _ => 1) rfl

/-- C5: every entry of `GlorothUniform::weights r c` is the corresponding
standard-normal sample times `sqrt(6/r + c)` — which differs from the
conventional `sqrt(6/(r+c))`, e.g. at `r = c = 1` — while every entry of
`HeUniform::weights r c` is the sample times `sqrt(2/c)`. -/
theorem C5_initializer_factors (r c : ℕ) (g : ℕ → ℝ) (i : ℕ) (h : i < r * c) :
    (ApiDefs.GlorothUniform.weights r c g).data.get? i
        = some (g i * Real.sqrt (6 / (r : ℝ) + (c : ℝ))) ∧
    (ApiDefs.HeUniform.weights r c g).data.get? i
        = some (g i * Real.sqrt (2 / (c : ℝ))) ∧
    Real.sqrt (6 / (1 : ℝ) + 1) ≠ Real.sqrt (6 / ((1 : ℝ) + 1)) := by
  refine ⟨?_, ?_, ?_⟩
  · show ((List.range (r * c)).map
        (fun j => g j * Real.sqrt (6 / (r : ℝ) + (c : ℝ)))).get? i = _
    rw [List.get?_map, List.get?_range h, Option.map_some']
  · show ((List.range (r * c)).map (fun j => g j * Real.sqrt (2 / (c : ℝ)))).get? i = _
    rw [List.get?_map, List.get?_range h, Option.map_some']
  · intro hs
    rw [show (6 / (1 : ℝ) + 1) = 7 by norm_num,
        show (6 / ((1 : ℝ) + 1)) = 3 by norm_num] at hs
    have h73 : (7 : ℝ) = 3 := (Real.sqrt_inj (by norm_num) (by norm_num)).mp hs
    norm_num at h73

theorem C5_initializer_factors_witness :
    0 < 2 * 3 ∧
    (ApiDefs.GlorothUniform.weights 2 3 (fun _ => 1)).data.get? 0
        = some ((1 : ℝ) * Real.sqrt (6 / ((2 : ℕ) : ℝ) + ((3 : ℕ) : ℝ))) :=
  ⟨by norm_num, (C5_initializer_factors 2 3 (fun _ => 1) 0 (by norm_num)).1⟩

/-- C2 (the code, at a failing input): `MLOps::soft_max` does not
exponentiate the entries before normalizing: at the finite input `[0, 0]`
it outputs `[0, 0]` (the raw entries divided by the sum of exponentials),
whose entries sum to `0`, not `1`. -/
theorem C2_soft_max_failing_input :
    NeunetD.MLOps.soft_max [0, 0] = [0, 0] ∧ ([(0 : ℝ), 0].sum ≠ 1) := by
  constructor
  · simp [NeunetD.MLOps.soft_max]
  · simp

/-- C7: the prototype single-neuron paths never return a value normally:
`NeuralNetwork::back_prop` reaches its `unimplemented!()` for every network
and input, and `StochasticGradientDescent::optimize` — whose only exit
after the `while` loop is `unimplemented!()` — produces no normal return
value on any input under any fuel bound. -/
theorem C7_prototype_paths_never_return (nn : NeunetD.NeuralNetwork) (inputs : List ℝ)
    (sgd : NeunetD.StochasticGradientDescent) (columns : List (List ℝ))
    (num_examples num_features : ℕ) (y : List ℝ) (fuel : ℕ) :
    NeunetD.NeuralNetwork.back_prop nn inputs = none ∧
    NeunetD.StochasticGradientDescent.optimize sgd columns num_examples num_features y fuel
      = none := by
  constructor
  · rfl
  · have key : ∀ (n : ℕ) (st : NeunetD.SGDState),
        NeunetD.sgdLoop sgd columns num_examples y n st = none := by
      intro n
      induction n with
      | zero => intro st; rfl
      | succ k ih =>
        intro st
        simp only [NeunetD.sgdLoop]
        split
        · rfl
        · exact ih _
    exact key fuel _

/-- C6 counterexample: at `y = 1`, `y_hat = 0` — a prediction the claim
explicitly includes — `MLOps::loss_from_pred` takes `ln 0` and the computed
loss is non-finite (no epsilon clamping happens before the logarithm). -/
theorem C6_counterexample : NeunetD.MLOps.loss_from_pred 1 0 = none := by
  simp [NeunetD.MLOps.loss_from_pred, NeunetD.lnF]

/-- C6 (amended): the loss computation does not clamp predictions away from
`{0, 1}`: for every `y`, the computed loss is a finite value exactly when
the prediction `y_hat` lies strictly inside `(0, 1)`; at `y_hat = 0` or
`y_hat = 1` a logarithm of zero is taken and the result is non-finite. -/
theorem C6_loss_finite_iff (y y_hat : ℚ) :
    (NeunetD.MLOps.loss_from_pred y y_hat).isSome ↔ 0 < y_hat ∧ y_hat < 1 := by
  unfold NeunetD.MLOps.loss_from_pred NeunetD.lnF
  split_ifs with h1 h2
  · simpa using ⟨h1, by linarith⟩
  · simp only [Option.isSome_none, Bool.false_eq_true, false_iff]
    rintro ⟨-, hb⟩
    exact h2 (by linarith)
  · simp only [Option.isSome_none, Bool.false_eq_true, false_iff]
    rintro ⟨ha, -⟩
    exact h1 ha
  · simp only [Option.isSome_none, Bool.false_eq_true, false_iff]
    rintro ⟨ha, -⟩
    exact h1 ha

/-- C9: a column whose entries all equal the same value `v > 0` has
`min = max = v`, so the `max > 0.0` guard passes and every entry is mapped
to `(v - v) / (v - v) = 0 / 0`, which is NaN in `f32` (`none` here): the
whole column becomes NaN rather than being normalized to `[0, 1]` or left
unchanged. -/
theorem C9_constant_positive_column_becomes_nan
    (col : List ℚ) (v : ℚ) (hv : 0 < v) (hne : col ≠ [])
    (hall : ∀ x ∈ col, x = v) :
    normalizeColumn col = col.map (fun _ => none) ∧
    col.map (fun _ => (none : Option ℚ)) ≠ col.map some := by
  have hmn : colMin col = v := colMin_const col hne hall
  have hmx : colMax col = v := colMax_const col hne hall
  constructor
  · unfold normalizeColumn
    rw [hmn, hmx, if_pos hv]
    refine List.map_congr_left ?_
    intro x hx
    rw [hall x hx]
    simp [divF]
  · cases col with
    | nil => exact absurd rfl hne
    | cons x xs => simp

theorem C9_constant_positive_column_becomes_nan_witness :
    (0 : ℚ) < 1 ∧
    (normalizeColumn [1, 1] = ([1, 1] : List ℚ).map (fun _ => none) ∧
      ([1, 1] : List ℚ).map (fun _ => (none : Option ℚ)) ≠ ([1, 1] : List ℚ).map some) :=
  ⟨by norm_num,
    C9_constant_positive_column_becomes_nan [1, 1] 1 (by norm_num) (by simp)
      (by intro x hx; rcases List.mem_cons.mp hx with h | h
          · exact h
          · simpa using h)⟩

/-- C4 counterexample: for the matrix with the single constant column
`[1, 1]` (pre-normalization max `1 > 0`), the normalized column is
`[NaN, NaN]` — its entries are not values at all, so its minimum is not 0
and its maximum is not 1, and it was not left unchanged either: the claim
as stated fails on this input. -/
theorem C4_counterexample : ¬ minMaxClaimC4 [[1, 1]] := by
  intro h
  obtain ⟨out, hout, hok⟩ := h 0 [1, 1] rfl
  have hmm : min_max_normalization [[1, 1]] = [[none, none]] := by
    norm_num [min_max_normalization, normalizeColumn, colMin, colMax, divF]
  rw [hmm] at hout
  obtain rfl : out = [none, none] := by simpa using hout.symm
  have hmx : ¬ colMax [1, 1] ≤ 0 := by norm_num [colMax]
  rw [columnOkC4, if_neg hmx] at hok
  simp [seqOpt] at hok

/-- C4 (amended): after `min_max_normalization`, every column whose
pre-normalization max is ≤ 0 is left entirely unchanged; every column with
max > 0 and min < max gets finite entries whose minimum is 0 and maximum
is 1; and every column with max > 0 and min = max (a constant positive
column) becomes entirely NaN instead. -/
theorem C4_min_max_normalization_trichotomy
    (m : List (List ℚ)) (i : ℕ) (col : List ℚ) (h : m.get? i = some col) :
    (min_max_normalization m).get? i = some (normalizeColumn col) ∧
    (colMax col ≤ 0 → normalizeColumn col = col.map some) ∧
    (0 < colMax col → colMin col < colMax col →
      ∃ vals, seqOpt (normalizeColumn col) = some vals ∧
        colMin vals = 0 ∧ colMax vals = 1) ∧
    (0 < colMax col → colMin col = colMax col →
      normalizeColumn col = col.map (fun _ => none)) := by
  refine ⟨?_, ?_, ?_, ?_⟩
  · rw [min_max_normalization, List.get?_map, h, Option.map_some']
  · intro hle
    rw [normalizeColumn, if_neg (not_lt.mpr hle)]
  · intro hpos hlt
    have hne : col ≠ [] := by
      rintro rfl
      rw [show colMax ([] : List ℚ) = 0 from rfl] at hpos
      exact lt_irrefl 0 hpos
    have hd : (0 : ℚ) < colMax col - colMin col := by linarith
    have hdne : colMax col - colMin col ≠ 0 := ne_of_gt hd
    set f : ℚ → ℚ := fun x => (x - colMin col) / (colMax col - colMin col) with hf
    have hmono : Monotone f := by
      intro a b hab
      rw [hf]
      exact (div_le_div_right hd).mpr (by linarith)
    have hform : normalizeColumn col = col.map (fun x => some (f x)) := by
      rw [normalizeColumn, if_pos hpos]
      refine List.map_congr_left ?_
      intro x _
      rw [divF, if_neg hdne, hf]
    refine ⟨col.map f, ?_, ?_, ?_⟩
    · rw [hform, seqOpt_map_some]
    · rw [colMin_map hmono col hne, hf]
      simp
    · rw [colMax_map hmono col hne, hf]
      exact div_self hdne
  · intro hpos heq
    rw [normalizeColumn, if_pos hpos]
    refine List.map_congr_left ?_
    intro x _
    rw [divF, if_pos (by rw [heq]; ring)]

theorem C4_min_max_normalization_trichotomy_witness :
    (([[0, 2]] : List (List ℚ)).get? 0 = some [0, 2]) ∧
    (∃ vals, seqOpt (normalizeColumn [0, 2]) = some vals ∧
      colMin vals = 0 ∧ colMax vals = 1) :=
  ⟨rfl, (C4_min_max_normalization_trichotomy [[0, 2]] 0 [0, 2] rfl).2.2.1
    (by norm_num [colMax]) (by norm_num [colMin, colMax])⟩

/-- C3 counterexample: for the one-layer network whose layer declares the
`relu` activation (weights `[[0]]`, intercept `[0]`) and input `[0]`,
`forward_prop` outputs `[sigmoid 0] = [1/2]`, while computing
`a = activation(z)` with the layer's own activation function, as the claim
states, would output `[relu 0] = [0]`. -/
theorem C3_counterexample :
    NeunetD.NeuralNetwork.forward_prop ⟨[⟨[0], [[0]], .relu⟩]⟩ [0] ≠
      NeunetD.forwardPropPerLayerActivation [⟨[0], [[0]], .relu⟩] [0] := by
  have hL : NeunetD.NeuralNetwork.forward_prop ⟨[⟨[0], [[0]], .relu⟩]⟩ [0]
      = [NeunetD.MLOps.sigmoid 0] := by
    simp [NeunetD.NeuralNetwork.forward_prop, NeunetD.affine, NeunetD.mulVec]
  have hR : NeunetD.forwardPropPerLayerActivation [⟨[0], [[0]], .relu⟩] [0]
      = [NeunetD.MLOps.relu 0] := by
    simp [NeunetD.forwardPropPerLayerActivation, NeunetD.applyActivation,
      NeunetD.affine, NeunetD.mulVec]
  rw [hL, hR]
  have h1 : NeunetD.MLOps.sigmoid 0 = 1 / 2 := by
    rw [NeunetD.MLOps.sigmoid, neg_zero, Real.exp_zero]
    norm_num
  have h2 : NeunetD.MLOps.relu 0 = 0 := by
    rw [NeunetD.MLOps.relu]
    simp
  rw [h1, h2]
  intro h
  have := List.head_eq_of_cons_eq h
  norm_num at this

/-- C3 (amended): for every network and every input vector, `forward_prop`
computes, for each layer in order, `z = W·a_prev + b` and
`a = sigmoid(z)` — the sigmoid, regardless of the layer's declared
activation function (the first layer's `a_prev` is the input, the final
layer's `a` is the output). -/
theorem C3_forward_prop_layerwise (nn : NeunetD.NeuralNetwork) (inputs : List ℝ) :
    NeunetD.NeuralNetwork.forward_prop nn inputs
      = NeunetD.forwardPropAllSigmoid nn.layers inputs := by
  obtain ⟨layers⟩ := nn
  induction layers generalizing inputs with
  | nil => rfl
  | cons l ls ih =>
    show NeunetD.NeuralNetwork.forward_prop ⟨l :: ls⟩ inputs = _
    rw [NeunetD.forwardPropAllSigmoid]
    rw [show NeunetD.NeuralNetwork.forward_prop ⟨l :: ls⟩ inputs
        = NeunetD.NeuralNetwork.forward_prop ⟨ls⟩
            ((NeunetD.affine l inputs).map NeunetD.MLOps.sigmoid) from rfl]
    exact ih _

namespace ApiDefs

/-- Field lookup defaulting to an empty object, for chaining. -/
def jGetD (v : JVal) (key : String) : JVal :=
  (jGet v key).getD (.obj [])

end ApiDefs

/-- C1 counterexample: for a concrete `TrainingMessage` whose `metrics` is
present, the JSON object `to_json` builds has no `"metrics"` field at all —
`loss`, `train_eval` and `test_eval` sit at the top level — and its
`train_eval.confusion_matrix` object carries the extra field
`"data_orientation_per_col"` beyond `data`, `dimension` and
`predictions_on_cols`: the claimed shape fails on this message. -/
theorem C1_counterexample :
    "metrics" ∉ ApiDefs.jKeys (ApiDefs.TrainingMessage.to_json
      ⟨"m", 1, 2, 3, some ⟨1/2, ⟨2, [1, 0, 0, 1], [1, 1], 1⟩, ⟨2, [1, 0, 0, 1], [1, 1], 1⟩⟩⟩) ∧
    ApiDefs.jKeys (ApiDefs.jGetD (ApiDefs.jGetD (ApiDefs.TrainingMessage.to_json
        ⟨"m", 1, 2, 3, some ⟨1/2, ⟨2, [1, 0, 0, 1], [1, 1], 1⟩, ⟨2, [1, 0, 0, 1], [1, 1], 1⟩⟩⟩)
        "train_eval") "confusion_matrix")
      = ["data", "predictions_on_cols", "data_orientation_per_col", "dimension"] := by
  constructor
  · simp [ApiDefs.TrainingMessage.to_json, ApiDefs.jKeys, ApiDefs.trainingEvalJson]
  · rfl

/-- C1 (amended): for every `TrainingMessage`, `to_json` produces an object
whose top-level fields are exactly `message`, `epoch`, `iteration`,
`batch_start` when `metrics` is absent and, when `metrics` is present,
additionally `loss`, `train_eval`, `test_eval` at the same top level
(there is no `metrics` wrapper object); each of `train_eval`/`test_eval`
is an object with fields `confusion_matrix`, `label_accuracies`,
`accuracy`, whose `confusion_matrix` object has exactly the fields `data`,
`predictions_on_cols`, `data_orientation_per_col`, `dimension`. -/
theorem C1_to_json_shape (msg : ApiDefs.TrainingMessage) :
    (msg.metrics = none →
      ApiDefs.jKeys msg.to_json = ["message", "epoch", "iteration", "batch_start"]) ∧
    (∀ mets, msg.metrics = some mets →
      ApiDefs.jKeys msg.to_json
        = ["message", "epoch", "iteration", "batch_start", "loss", "train_eval", "test_eval"] ∧
      ApiDefs.jGet msg.to_json "train_eval" = some (ApiDefs.trainingEvalJson mets.train_eval) ∧
      ApiDefs.jGet msg.to_json "test_eval" = some (ApiDefs.trainingEvalJson mets.test_eval) ∧
      ApiDefs.jKeys (ApiDefs.trainingEvalJson mets.train_eval)
        = ["confusion_matrix", "label_accuracies", "accuracy"] ∧
      ApiDefs.jKeys (ApiDefs.jGetD (ApiDefs.trainingEvalJson mets.train_eval) "confusion_matrix")
        = ["data", "predictions_on_cols", "data_orientation_per_col", "dimension"]) := by
  constructor
  · intro hnone
    simp [ApiDefs.TrainingMessage.to_json, ApiDefs.jKeys, hnone]
  · intro mets hsome
    refine ⟨?_, ?_, ?_, rfl, rfl⟩
    · simp [ApiDefs.TrainingMessage.to_json, ApiDefs.jKeys, hsome]
    · simp [ApiDefs.TrainingMessage.to_json, ApiDefs.jGet, hsome, List.find?]
    · simp [ApiDefs.TrainingMessage.to_json, ApiDefs.jGet, hsome, List.find?]

theorem C1_to_json_shape_witness :
    ApiDefs.jKeys (ApiDefs.TrainingMessage.to_json
        ⟨"w", 4, 5, 6, some ⟨1, ⟨1, [1], [1], 1⟩, ⟨1, [1], [1], 1⟩⟩⟩)
      = ["message", "epoch", "iteration", "batch_start", "loss", "train_eval", "test_eval"] :=
  ((C1_to_json_shape ⟨"w", 4, 5, 6, some ⟨1, ⟨1, [1], [1], 1⟩, ⟨1, [1], [1], 1⟩⟩⟩).2
    ⟨1, ⟨1, [1], [1], 1⟩, ⟨1, [1], [1], 1⟩⟩ rfl).1
